import Mathlib

/-!
# Verification of the BigCrawl crawl frontier and near-duplicate engine

This file is a shallow embedding of the Python sources of the BigCrawl
repository (`URLManager.py`, `SimhashManager.py`, `crawler.py`,
`files_manager/files_manager.py`) together with proofs about the embedded
definitions.

Embedding conventions:

* Python `set` objects are modelled as duplicate-free `List String` values with
  the operations `setAdd` (`set.add`), `setDiscard` (`set.discard`) and
  `pySetUpdate` (`set.update`); membership is list membership, so statements
  about set equivalence are phrased via membership.
* The `asyncio.Queue` is modelled as a FIFO `List String` (front of the list is
  the head of the queue).  `put_nowait`/`put` append on the right, `get` pops
  the head.  `get` on an empty queue suspends in the source; this is modelled
  by an `Option` result of `none` (and the step relation for runs only takes
  from a non-empty queue).
* `self.domain_scrape_tracker` is a Python dict read and written with a default
  of `0` (the source initializes any missing key to `0` before every access);
  it is modelled as a total function `String → Nat`, under which initializing
  an absent key to the default is the identity.
* Results of awaited collaborator calls are oracle parameters: the result of
  `self.is_allowed(url)` is `allowed : Bool`, the 5% domain-cap lottery
  `random.random() < 0.05` is `lottery : Bool`, the 1% reshuffle coin
  `random.random() < 0.01` is `doShuffle : Bool` and `random.shuffle` is an
  arbitrary function `List String → List String` (constrained to produce a
  permutation exactly where the claim about it needs that library guarantee).
* File-system paths, the robots.txt cache and `asyncio` locks carry no frontier
  state relevant to the claims and are omitted from the state record;
  `global_queue.task_done()` bookkeeping has no observable effect on the
  modelled state and is likewise omitted.
-/

/-- Models `urlparse(url).netloc` for the URL shapes the crawler handles: the
authority component between `"://"` and the next `"/"` (empty when the URL has
no scheme separator, as `urlparse` yields for scheme-less strings). -/
def getDomain (url : String) : String :=
  (((url.splitOn "://").drop 1).headD "").splitOn "/" |>.headD ""

/-- Models Python `set.add`: appends the element unless already present. -/
def setAdd (s : List String) (x : String) : List String :=
  if x ∈ s then s else s ++ [x]

/-- Models Python `set.discard`: removes the element if present. -/
def setDiscard (s : List String) (x : String) : List String :=
  s.filter (fun y => y != x)

/-- Models Python `set.update`: adds every element of `t` in turn. -/
def pySetUpdate (s t : List String) : List String :=
  t.foldl setAdd s

/-- Models Python `set(l)`: the deduplicated contents of `l`. -/
def pySet (l : List String) : List String :=
  pySetUpdate [] l

/-- State of `URLManager` (from `src/URLManager.py`): the four URL lifecycle
sets, the shared work queue, and per-domain submission bookkeeping. -/
structure URLManager where
  queued : List String
  visited : List String
  being_crawled : List String
  failed_urls : List String
  global_queue : List String
  domain_scrape_tracker : String → Nat
  domain_scrape_limit : Nat
  disable_robots : Bool

/-- Models `URLManager.__init__` (fresh instance): all sets empty, empty queue,
tracker at the default `0` everywhere, `domain_scrape_limit = 100000`. -/
def URLManager.init (disable_robots : Bool) : URLManager :=
  { queued := []
    visited := []
    being_crawled := []
    failed_urls := []
    global_queue := []
    domain_scrape_tracker := fun _ => 0
    domain_scrape_limit := 100000
    disable_robots := disable_robots }

/-- Models `URLManager.add_url` (lines 103-128).  `allowed` is the oracle for
`await self.is_allowed(url)` and `lottery` for `random.random() < 0.05`.  The
source first ensures the tracker has a `0` entry for the domain (identity under
the total-function model), skips seen URLs, applies the domain cap with the
lottery escape, applies the robots gate, then increments the tracker and puts
the URL on the global queue and into `queued` (`put_nowait` on the default
unbounded queue never raises, so the `except` fallback is unreachable). -/
def add_url (m : URLManager) (url : String) (allowed lottery : Bool) : URLManager :=
  if url ∈ m.visited ∨ url ∈ m.being_crawled ∨ url ∈ m.failed_urls ∨ url ∈ m.queued then
    m
  else if m.domain_scrape_tracker (getDomain url) ≥ m.domain_scrape_limit ∧ ¬lottery then
    m
  else if ¬allowed ∧ ¬m.disable_robots then
    m
  else
    { m with
      domain_scrape_tracker := fun d =>
        if d = getDomain url then m.domain_scrape_tracker d + 1 else m.domain_scrape_tracker d
      global_queue := m.global_queue ++ [url]
      queued := setAdd m.queued url }

/-- Models the drain loop of `URLManager.get_url` (lines 140-142): repeatedly
`get` until the queue is empty, collecting the URLs in queue order. -/
def drainQueue (m : URLManager) : List String × URLManager :=
  (m.global_queue, { m with global_queue := [] })

/-- Models the refill loop of `URLManager.get_url` (lines 144-145): `put` each
URL of the shuffled list back, in list order. -/
def refillQueue (l : List String) (m : URLManager) : URLManager :=
  { m with global_queue := m.global_queue ++ l }

/-- Models the low-probability reshuffle block of `URLManager.get_url`
(lines 139-145): drain the whole queue into `temp_list`, apply
`random.shuffle` (the `shuffle` parameter), and put every URL back. -/
def reshuffleQueue (shuffle : List String → List String) (m : URLManager) : URLManager :=
  let p := drainQueue m
  refillQueue (shuffle p.1) p.2

/-- Models `URLManager.get_url` (lines 133-155).  `doShuffle` is the oracle for
`random.random() < 0.01`.  Popping the head moves the URL from `queued` to
`being_crawled`; an empty queue (where the source suspends in `await get()`)
yields `none`. -/
def get_url (m : URLManager) (doShuffle : Bool) (shuffle : List String → List String) :
    Option String × URLManager :=
  let m := if doShuffle then reshuffleQueue shuffle m else m
  match m.global_queue with
  | [] => (none, m)
  | url :: rest =>
      (some url,
        { m with
          global_queue := rest
          queued := setDiscard m.queued url
          being_crawled := setAdd m.being_crawled url })

/-- Models `URLManager.mark_visited` (lines 164-170). -/
def mark_visited (m : URLManager) (url : String) : URLManager :=
  { m with
    visited := setAdd m.visited url
    being_crawled := setDiscard m.being_crawled url }

/-- Models `URLManager.mark_failed` (lines 172-178). -/
def mark_failed (m : URLManager) (url : String) : URLManager :=
  { m with
    failed_urls := setAdd m.failed_urls url
    being_crawled := setDiscard m.being_crawled url }

/-- Models `URLManager.has_pending_urls` (lines 180-181):
`not self.global_queue.empty() or bool(self.queued)`. -/
def has_pending_urls (m : URLManager) : Bool :=
  !m.global_queue.isEmpty || !m.queued.isEmpty

/-- The on-disk checkpoint written by `URLManager.save_state`: the state file
holds `queued`, `visited` and `being_crawled`; the separate failed file holds
`failed_urls`. -/
structure CheckpointData where
  queued : List String
  visited : List String
  being_crawled : List String
  failed : List String

/-- Models `URLManager.save_state` (lines 186-196): serialize the three state
lists and the failed list. -/
def save_state (m : URLManager) : CheckpointData :=
  { queued := m.queued
    visited := m.visited
    being_crawled := m.being_crawled
    failed := m.failed_urls }

/-- Models `URLManager.load_state` (lines 198-217) with both checkpoint files
present: the three sets are read back (`set(...)` of the stored lists), the
failed URLs are merged into `visited` (line 210) — `self.failed_urls` itself is
left untouched — and the global queue is refilled from `list(self.queued)`. -/
def load_state (m : URLManager) (cp : CheckpointData) : URLManager :=
  let queued := pySet cp.queued
  { m with
    queued := queued
    visited := pySetUpdate (pySet cp.visited) (pySet cp.failed)
    being_crawled := pySet cp.being_crawled
    global_queue := m.global_queue ++ queued }

/-! ## Simhash near-duplicate engine (`src/SimhashManager.py`)

`Simhash` and `SimhashIndex` come from the external `simhash` library; they are
modelled at their interface: a fingerprint is its `value` (a natural number
below `2 ^ f`), `Simhash.distance` is the Hamming distance of the two values
masked to `f` bits, and `SimhashIndex` is the stored `(obj_id, value)` entries,
where `SimhashIndex.add` appends an entry (the library never removes or
replaces entries for an existing id) and `SimhashIndex.get_near_dups` returns
exactly the stored ids whose fingerprint lies within Hamming distance `k` of
the query (the library's bucketing is complete for distance `≤ k` and filters
candidates by exact distance).  The text-to-fingerprint computation
`Simhash(text, f)` is an arbitrary parameter `computeHash : String → Nat`. -/

/-- Number of bit positions below `fuel` at which `a` and `b` differ. -/
def hammingAux : Nat → Nat → Nat → Nat
  | 0, _, _ => 0
  | fuel + 1, a, b => (if a % 2 = b % 2 then 0 else 1) + hammingAux fuel (a / 2) (b / 2)

/-- Models `Simhash.distance`: the library computes the population count of
`(a ^ b) & ((1 << f) - 1)`, i.e. the number of bit positions below `f` at
which the two values differ; masking with `(1 << f) - 1` is reduction modulo
`2 ^ f`, and a value below `2 ^ f` has all its set bits below position `f`,
so examining exactly the `f` low bit positions of the masked values computes
the same count. -/
def hammingDistance (f a b : Nat) : Nat :=
  hammingAux f (a % 2 ^ f) (b % 2 ^ f)

/-- State of `SimhashManager`: the duplicate-distance bound `k`, fingerprint
width `f`, the `hashes` dict (`page_id → fingerprint value`, modelled as an
association list written by `dictInsert`) and the `SimhashIndex` entries. -/
structure SimhashManager where
  k : Nat
  f : Nat
  hashes : List (String × Nat)
  index : List (String × Nat)

/-- Models `SimhashManager.__init__` with no prior state file: empty `hashes`
dict and an empty index. -/
def SimhashManager.init (k f : Nat) : SimhashManager :=
  { k := k, f := f, hashes := [], index := [] }

/-- Models Python dict assignment `d[key] = v` on an association list:
overwrite the entry for `key` if present, otherwise append it. -/
def dictInsert (key : String) (v : Nat) : List (String × Nat) → List (String × Nat)
  | [] => [(key, v)]
  | e :: rest => if e.1 = key then (key, v) :: rest else e :: dictInsert key v rest

/-- Models Python dict lookup `d[key]` on an association list. -/
def dictGet (key : String) : List (String × Nat) → Option Nat
  | [] => none
  | e :: rest => if e.1 = key then some e.2 else dictGet key rest

/-- Models `SimhashIndex.get_near_dups`: the ids of all stored entries whose
fingerprint lies within Hamming distance `k` of the query fingerprint. -/
def get_near_dups (m : SimhashManager) (h : Nat) : List String :=
  (m.index.filter (fun e => decide (hammingDistance m.f e.2 h ≤ m.k))).map (fun e => e.1)

/-- Models `SimhashManager.add_page` (lines 26-42): compute the fingerprint of
`text`; if the index reports any near-duplicate, return `False` and change
nothing; otherwise store the fingerprint in the `hashes` dict under `page_id`,
append it to the index (`SimhashIndex.add`), and return `True`. -/
def add_page (computeHash : String → Nat) (m : SimhashManager) (page_id text : String) :
    Bool × SimhashManager :=
  let page_hash := computeHash text
  let dupes := get_near_dups m page_hash
  if !dupes.isEmpty then
    (false, m)
  else
    (true,
      { m with
        hashes := dictInsert page_id page_hash m.hashes
        index := m.index ++ [(page_id, page_hash)] })

/-! ## Crawl worker (`src/crawler.py`) and language predicate
(`src/files_manager/files_manager.py`)

A fetched page is abstracted into the fields the worker and the language
predicate read from it via the HTTP/HTML collaborators (`aiohttp` response
headers and `BeautifulSoup` extraction): whether the Content-Type header
contains `"text/html"`, whether the document has an `<html>` tag, the value of
its `lang`/`xml:lang` attribute (`html_tag.get("lang") or
html_tag.get("xml:lang")`, `none` when absent), the `content` of a
`content-language` meta tag (`none` when no such tag exists), the canonical
link (`extract_canonical`), the visible text (`extract_text`) and the outbound
links (`extract_links`). -/

structure Page where
  contentTypeHtml : Bool
  hasHtmlTag : Bool
  langAttr : Option String
  metaContentLang : Option String
  canonical : Option String
  text : String
  links : List String

/-- Models Python `str.lower` on the ASCII range (as exercised here). -/
def pyLower (s : String) : String :=
  String.mk (s.data.map Char.toLower)

/-- Models Python `str.startswith`. -/
def pyStartsWith (s pat : String) : Bool :=
  pat.data.isPrefixOf s.data

/-- Substring test on character lists, structural in the haystack. -/
def containsSubAux (needle : List Char) : List Char → Bool
  | [] => needle.isEmpty
  | c :: rest => needle.isPrefixOf (c :: rest) || containsSubAux needle rest

/-- Models Python `needle in hay` on strings. -/
def pySubstrMem (needle hay : String) : Bool :=
  containsSubAux needle.data hay.data

/-- Models `is_page_english_by_metadata` (files_manager.py lines 7-26): with an
`<html>` tag, answer from its `lang`/`xml:lang` attribute (`True` exactly when
the attribute is truthy and its lowercase form starts with `"en"`); otherwise
answer from a `content-language` meta tag (`True` exactly when `"en"` occurs in
the lowercased content); with neither, return `None`. -/
def is_page_english_by_metadata (page : Page) : Option Bool :=
  if page.hasHtmlTag then
    match page.langAttr with
    | some lang => if lang ≠ "" ∧ pyStartsWith (pyLower lang) "en" then some true else some false
    | none => some false
  else
    match page.metaContentLang with
    | some content => if pySubstrMem "en" (pyLower content) then some true else some false
    | none => none

/-- Observable outcome of one successful-fetch iteration of `crawl_worker`:
the updated managers, whether the page body was enqueued to the disk writer
(`save_queue.put`, i.e. a Document Record is written) and whether the text was
submitted to `SimhashManager.add_page`. -/
structure IterResult where
  um : URLManager
  sm : SimhashManager
  savedDoc : Bool
  ranTryAdmit : Bool

/-- Models `crawl_worker` lines 112-137 (simhash, save, link extraction):
submit the text to `add_page`; a near-duplicate is just marked visited; a new
page is enqueued for the disk writer, marked visited, and its outbound links
submitted in order. -/
def crawl_worker_body (computeHash : String → Nat) (allowedF lotteryF : String → Bool)
    (um : URLManager) (sm : SimhashManager) (url : String) (text : String)
    (links : List String) : IterResult :=
  let r := add_page computeHash sm url text
  if !r.1 then
    { um := mark_visited um url, sm := r.2, savedDoc := false, ranTryAdmit := true }
  else
    { um := links.foldl (fun m l => add_url m l (allowedF l) (lotteryF l)) (mark_visited um url)
      sm := r.2
      savedDoc := true
      ranTryAdmit := true }

/-- Models one iteration of the `crawl_worker` loop (crawler.py lines 95-137)
for a page whose fetch succeeded: non-hypertext content is marked visited and
skipped; a truthy canonical link different from the fetched URL is submitted
while the original is marked visited (`if canonical and canonical != url`);
otherwise the body (`crawl_worker_body`) runs.  `allowedF`/`lotteryF` are the
per-URL oracles threaded into `add_url`.  The source performs no language
check in this loop. -/
def crawl_worker_iter (computeHash : String → Nat) (allowedF lotteryF : String → Bool)
    (um : URLManager) (sm : SimhashManager) (url : String) (page : Page) : IterResult :=
  if !page.contentTypeHtml then
    { um := mark_visited um url, sm := sm, savedDoc := false, ranTryAdmit := false }
  else
    let aliasLink :=
      match page.canonical with
      | some c => if c ≠ "" ∧ c ≠ url then some c else none
      | none => none
    match aliasLink with
    | some c =>
        { um := mark_visited (add_url um c (allowedF c) (lotteryF c)) url
          sm := sm
          savedDoc := false
          ranTryAdmit := false }
    | none => crawl_worker_body computeHash allowedF lotteryF um sm url page.text page.links

/-! ## Runs of the frontier

A run interleaves, in any order: `add_url` calls (from seeding and from link
extraction), the reshuffle and pop phases of `get_url`, and the worker loop's
per-URL processing of a URL previously obtained from `get_url`.  The ghost
component `held` records the URLs whose worker iteration — from `get_url` to
the top of the next loop iteration — is still in progress.  Crucially,
`mark_visited` does NOT end the iteration: in the accept path the source calls
`mark_visited(url)` at crawler.py line 123 and then still submits the
extracted links and possibly calls `save_state` (lines 126-135); an exception
raised there is caught at line 139 and `mark_failed(url)` at line 140 runs on
the already-visited URL.  A worker iteration therefore ends either with
`markFailed` (the `except` block is the last thing the iteration can do) or
with the silent `iterDone` step (reaching `continue` or the end of the `try`
block), and until then the held URL may still be marked. -/

structure RunState where
  mgr : URLManager
  held : List String

/-- One atomic frontier transition of a run (the source mutates the frontier
only between suspension points, so each of these is atomic under the
cooperative scheduler).  `markVisited` keeps the URL held, so the source's
exception path `mark_visited(url)` (crawler.py line 123) followed by
`mark_failed(url)` (lines 139-140) in the same iteration is expressible;
`markFailed` and `iterDone` end the iteration and release the URL. -/
inductive Step : RunState → RunState → Prop where
  | submit (s : RunState) (url : String) (allowed lottery : Bool) :
      Step s ⟨add_url s.mgr url allowed lottery, s.held⟩
  | reshuffle (s : RunState) (shuffle : List String → List String)
      (h : (shuffle s.mgr.global_queue).Perm s.mgr.global_queue) :
      Step s ⟨reshuffleQueue shuffle s.mgr, s.held⟩
  | take (s : RunState) (url : String) (m' : URLManager)
      (h : get_url s.mgr false (fun l => l) = (some url, m')) :
      Step s ⟨m', setAdd s.held url⟩
  | markVisited (s : RunState) (url : String) (h : url ∈ s.held) :
      Step s ⟨mark_visited s.mgr url, s.held⟩
  | markFailed (s : RunState) (url : String) (h : url ∈ s.held) :
      Step s ⟨mark_failed s.mgr url, setDiscard s.held url⟩
  | iterDone (s : RunState) (url : String) (h : url ∈ s.held) :
      Step s ⟨s.mgr, setDiscard s.held url⟩

/-- The work queue mirrors the `queued` set: no duplicates, same members
(the source adds a URL to both together and removes it from both together). -/
def QueueSync (m : URLManager) : Prop :=
  m.global_queue.Nodup ∧ ∀ u, u ∈ m.global_queue ↔ u ∈ m.queued

/-- Number of the four lifecycle sets containing `u`. -/
def stateCount (m : URLManager) (u : String) : Nat :=
  (if u ∈ m.queued then 1 else 0) + (if u ∈ m.being_crawled then 1 else 0) +
    (if u ∈ m.visited then 1 else 0) + (if u ∈ m.failed_urls then 1 else 0)

/-- Number of the three buckets \x7bqueued, in-flight, terminal\x7d containing
`u`, where the terminal bucket is `visited ∪ failed`.  (`visited` and `failed`
are counted as one bucket because the worker's late exception path can put a
URL in both; see `m5`.) -/
def exclusiveCount (m : URLManager) (u : String) : Nat :=
  (if u ∈ m.queued then 1 else 0) + (if u ∈ m.being_crawled then 1 else 0) +
    (if u ∈ m.visited ∨ u ∈ m.failed_urls then 1 else 0)

/-- Run invariant: queue/`queued` synchronisation, every held URL has already
left the queued state (it is in-flight or terminal), and every URL is in at
most one of the buckets \x7bqueued, in-flight, terminal\x7d. -/
def RunInv (s : RunState) : Prop :=
  QueueSync s.mgr ∧
    (∀ u, u ∈ s.held →
      u ∈ s.mgr.being_crawled ∨ u ∈ s.mgr.visited ∨ u ∈ s.mgr.failed_urls) ∧
    ∀ u, exclusiveCount s.mgr u ≤ 1

/-- A URL is stranded in a run state: it is recorded as in-flight but is not
on the work queue, is held by no worker, and is neither visited nor failed. -/
def Stranded (url : String) (s : RunState) : Prop :=
  url ∈ s.mgr.being_crawled ∧ url ∉ s.mgr.global_queue ∧ url ∉ s.held ∧
    url ∉ s.mgr.visited ∧ url ∉ s.mgr.failed_urls

/-- `save_state` followed by `load_state` into a fresh instance (the restart
sequence of `crawler.main`). -/
def restore_roundtrip (dr : Bool) (st : URLManager) : URLManager :=
  load_state (URLManager.init dr) (save_state st)

/-! ## Concrete states used by witnesses and counterexamples -/

/-- Fresh manager after submitting the single URL `"u"`. -/
def m1 : URLManager :=
  add_url (URLManager.init false) "u" true true

/-- State of `m1` after a worker takes `"u"` (so `"u"` is in-flight and the
queue is empty). -/
def m2 : URLManager :=
  (get_url m1 false (fun l => l)).2

/-- State of `m2` after the worker's exception path marks `"u"` failed. -/
def m3 : URLManager :=
  mark_failed m2 "u"

/-- State of `m2` after the accept path marks `"u"` visited (crawler.py
line 123), before the iteration has finished. -/
def m4 : URLManager :=
  mark_visited m2 "u"

/-- State of `m4` after an exception later in the same iteration — e.g. a
malformed extracted href making `urlparse` raise inside `add_url`
(crawler.py lines 126-128, URLManager.py line 41), or an I/O error in the
soft-limit `save_state` (line 135) — reaches the handler at line 139 and
`mark_failed("u")` runs at line 140 on the already-visited URL. -/
def m5 : URLManager :=
  mark_failed m4 "u"

/-- A manager whose `visited` set already contains `"u"`. -/
def mVis : URLManager :=
  { queued := []
    visited := ["u"]
    being_crawled := []
    failed_urls := []
    global_queue := []
    domain_scrape_tracker := fun _ => 0
    domain_scrape_limit := 100000
    disable_robots := false }

/-- A manager with one URL in each lifecycle set (and the queued one on the
work queue). -/
def stC1 : URLManager :=
  { queued := ["q"]
    visited := ["v"]
    being_crawled := ["b"]
    failed_urls := ["f"]
    global_queue := ["q"]
    domain_scrape_tracker := fun _ => 0
    domain_scrape_limit := 100000
    disable_robots := false }

/-- A manager with a two-element work queue, for the reshuffle witness. -/
def mShuf : URLManager :=
  { queued := ["a", "b"]
    visited := []
    being_crawled := []
    failed_urls := []
    global_queue := ["a", "b"]
    domain_scrape_tracker := fun _ => 0
    domain_scrape_limit := 100000
    disable_robots := false }

/-- A checkpoint recording the URL `"s"` as in-flight. -/
def cp10 : CheckpointData :=
  { queued := ["q"], visited := ["v"], being_crawled := ["s"], failed := ["f"] }

/-- A concrete fingerprint function: `"a"` hashes to `0`, everything else to
`15` (Hamming distance `4` from `0`). -/
def chash0 : String → Nat :=
  fun t => if t = "a" then 0 else 15

/-- A concrete fingerprint function with both a near (`distance 1`) and a far
(`distance 4`) pair of texts. -/
def chashW : String → Nat :=
  fun t => if t = "a" then 0 else if t = "b" then 1 else 15

/-- A fetched HTML page that is confidently non-English (`lang="fr"`), has no
canonical link, and carries fresh text. -/
def pageFr : Page :=
  { contentTypeHtml := true
    hasHtmlTag := true
    langAttr := some "fr"
    metaContentLang := none
    canonical := none
    text := "bonjour"
    links := [] }

/-- The same page as `pageFr` except that its language attribute is English. -/
def pageEn : Page :=
  { pageFr with langAttr := some "en" }

/-! ## Basic lemmas about the Python-set model -/

theorem mem_setAdd {s : List String} {x u : String} : u ∈ setAdd s x ↔ u ∈ s ∨ u = x := by
  unfold setAdd
  split
  · rename_i hx
    constructor
    · exact Or.inl
    · rintro (h | rfl)
      · exact h
      · exact hx
  · simp [List.mem_append]

theorem mem_setDiscard {s : List String} {x u : String} :
    u ∈ setDiscard s x ↔ u ∈ s ∧ u ≠ x := by
  unfold setDiscard
  simp [List.mem_filter]

theorem nodup_setAdd {s : List String} {x : String} (h : s.Nodup) : (setAdd s x).Nodup := by
  unfold setAdd
  split
  · exact h
  · rename_i hx
    simp [List.nodup_append, h, hx]

theorem mem_pySetUpdate {u : String} {t s : List String} :
    u ∈ pySetUpdate s t ↔ u ∈ s ∨ u ∈ t := by
  induction t generalizing s with
  | nil => simp [pySetUpdate]
  | cons a t ih =>
      show u ∈ pySetUpdate (setAdd s a) t ↔ _
      rw [ih, mem_setAdd]
      simp only [List.mem_cons]
      tauto

theorem mem_pySet {u : String} {l : List String} : u ∈ pySet l ↔ u ∈ l := by
  unfold pySet
  rw [mem_pySetUpdate]
  simp

theorem exclusiveCount_congr {m m' : URLManager} {u : String}
    (hq : u ∈ m'.queued ↔ u ∈ m.queued) (hb : u ∈ m'.being_crawled ↔ u ∈ m.being_crawled)
    (ht : (u ∈ m'.visited ∨ u ∈ m'.failed_urls) ↔ (u ∈ m.visited ∨ u ∈ m.failed_urls)) :
    exclusiveCount m' u = exclusiveCount m u := by
  unfold exclusiveCount
  rw [if_congr hq rfl rfl, if_congr hb rfl rfl, if_congr ht rfl rfl]

theorem exclusiveCount_le_one_queued {m : URLManager} {u : String}
    (hc : exclusiveCount m u ≤ 1) (hq : u ∈ m.queued) :
    u ∉ m.being_crawled ∧ u ∉ m.visited ∧ u ∉ m.failed_urls := by
  unfold exclusiveCount at hc
  rw [if_pos hq] at hc
  refine ⟨fun hb => ?_, fun hv => ?_, fun hf => ?_⟩
  · rw [if_pos hb] at hc; omega
  · rw [if_pos (Or.inl hv)] at hc; omega
  · rw [if_pos (Or.inr hf)] at hc; omega

theorem exclusiveCount_le_one_bc {m : URLManager} {u : String}
    (hc : exclusiveCount m u ≤ 1) (hb : u ∈ m.being_crawled) :
    u ∉ m.queued ∧ u ∉ m.visited ∧ u ∉ m.failed_urls := by
  unfold exclusiveCount at hc
  rw [if_pos hb] at hc
  refine ⟨fun hq => ?_, fun hv => ?_, fun hf => ?_⟩
  · rw [if_pos hq] at hc; omega
  · rw [if_pos (Or.inl hv)] at hc; omega
  · rw [if_pos (Or.inr hf)] at hc; omega

theorem exclusiveCount_le_one_term {m : URLManager} {u : String}
    (hc : exclusiveCount m u ≤ 1) (ht : u ∈ m.visited ∨ u ∈ m.failed_urls) :
    u ∉ m.queued ∧ u ∉ m.being_crawled := by
  unfold exclusiveCount at hc
  rw [if_pos ht] at hc
  refine ⟨fun hq => ?_, fun hb => ?_⟩
  · rw [if_pos hq] at hc; omega
  · rw [if_pos hb] at hc; omega

/-! ## Case analysis for the frontier operations -/

theorem add_url_eq_or (m : URLManager) (url : String) (allowed lottery : Bool) :
    add_url m url allowed lottery = m ∨
      (url ∉ m.visited ∧ url ∉ m.being_crawled ∧ url ∉ m.failed_urls ∧ url ∉ m.queued ∧
        (add_url m url allowed lottery).queued = m.queued ++ [url] ∧
        (add_url m url allowed lottery).global_queue = m.global_queue ++ [url] ∧
        (add_url m url allowed lottery).visited = m.visited ∧
        (add_url m url allowed lottery).being_crawled = m.being_crawled ∧
        (add_url m url allowed lottery).failed_urls = m.failed_urls) := by
  by_cases h1 : url ∈ m.visited ∨ url ∈ m.being_crawled ∨ url ∈ m.failed_urls ∨ url ∈ m.queued
  · left
    unfold add_url
    rw [if_pos h1]
  · by_cases h2 : m.domain_scrape_tracker (getDomain url) ≥ m.domain_scrape_limit ∧ ¬lottery
    · left
      unfold add_url
      rw [if_neg h1, if_pos h2]
    · by_cases h3 : ¬allowed ∧ ¬m.disable_robots
      · left
        unfold add_url
        rw [if_neg h1, if_neg h2, if_pos h3]
      · right
        have h1' := h1
        push_neg at h1'
        obtain ⟨hv, hb, hf, hq⟩ := h1'
        have hrec : add_url m url allowed lottery =
            { m with
              domain_scrape_tracker := fun d =>
                if d = getDomain url then m.domain_scrape_tracker d + 1
                else m.domain_scrape_tracker d
              global_queue := m.global_queue ++ [url]
              queued := setAdd m.queued url } := by
          unfold add_url
          rw [if_neg h1, if_neg h2, if_neg h3]
        refine ⟨hv, hb, hf, hq, ?_, ?_, ?_, ?_, ?_⟩
        · rw [hrec]
          show setAdd m.queued url = m.queued ++ [url]
          unfold setAdd
          rw [if_neg hq]
        · rw [hrec]
        · rw [hrec]
        · rw [hrec]
        · rw [hrec]

theorem get_url_pop {m : URLManager} {url : String} {m' : URLManager}
    (h : get_url m false (fun l => l) = (some url, m')) :
    ∃ rest, m.global_queue = url :: rest ∧
      m' = { m with
             global_queue := rest
             queued := setDiscard m.queued url
             being_crawled := setAdd m.being_crawled url } := by
  unfold get_url at h
  simp only [Bool.false_eq_true, if_false] at h
  cases hq : m.global_queue with
  | nil =>
      rw [hq] at h
      simp at h
  | cons a rest =>
      rw [hq] at h
      simp only [Prod.mk.injEq, Option.some.injEq] at h
      obtain ⟨h1, h2⟩ := h
      subst h1
      exact ⟨rest, rfl, h2.symm⟩

/-! ## Preservation of the run invariant -/

theorem runInv_submit (s : RunState) (url : String) (allowed lottery : Bool)
    (h : RunInv s) : RunInv ⟨add_url s.mgr url allowed lottery, s.held⟩ := by
  obtain ⟨⟨hnd, hsync⟩, hheld, hcount⟩ := h
  rcases add_url_eq_or s.mgr url allowed lottery with heq | ⟨hv, hb, hf, hq, e1, e2, e3, e4, e5⟩
  · rw [heq]
    exact ⟨⟨hnd, hsync⟩, hheld, hcount⟩
  · refine ⟨⟨?_, ?_⟩, ?_, ?_⟩
    · show (add_url s.mgr url allowed lottery).global_queue.Nodup
      rw [e2]
      refine List.Nodup.append hnd (List.nodup_singleton url) ?_
      intro a ha hb2
      simp only [List.mem_singleton] at hb2
      subst hb2
      exact hq ((hsync a).mp ha)
    · intro u
      show u ∈ (add_url s.mgr url allowed lottery).global_queue ↔
        u ∈ (add_url s.mgr url allowed lottery).queued
      rw [e1, e2]
      simp only [List.mem_append, List.mem_singleton]
      exact or_congr (hsync u) Iff.rfl
    · intro u hu
      show u ∈ (add_url s.mgr url allowed lottery).being_crawled ∨
        u ∈ (add_url s.mgr url allowed lottery).visited ∨
        u ∈ (add_url s.mgr url allowed lottery).failed_urls
      rw [e3, e4, e5]
      exact hheld u hu
    · intro u
      by_cases huu : u = url
      · subst huu
        show exclusiveCount (add_url s.mgr u allowed lottery) u ≤ 1
        unfold exclusiveCount
        rw [e1, e3, e4, e5]
        simp [List.mem_append, hv, hb, hf, hq]
      · have hcc : exclusiveCount (add_url s.mgr url allowed lottery) u =
            exclusiveCount s.mgr u := by
          apply exclusiveCount_congr
          · rw [e1]
            simp [List.mem_append, huu]
          · rw [e4]
          · rw [e3, e5]
        rw [hcc]
        exact hcount u

theorem runInv_reshuffle (s : RunState) (shuffle : List String → List String)
    (hp : (shuffle s.mgr.global_queue).Perm s.mgr.global_queue) (h : RunInv s) :
    RunInv ⟨reshuffleQueue shuffle s.mgr, s.held⟩ := by
  obtain ⟨⟨hnd, hsync⟩, hheld, hcount⟩ := h
  refine ⟨⟨?_, ?_⟩, hheld, hcount⟩
  · show (shuffle s.mgr.global_queue).Nodup
    exact hp.nodup_iff.mpr hnd
  · intro u
    show u ∈ shuffle s.mgr.global_queue ↔ u ∈ s.mgr.queued
    exact hp.mem_iff.trans (hsync u)

theorem runInv_take (s : RunState) (url : String) (m' : URLManager)
    (h : get_url s.mgr false (fun l => l) = (some url, m')) (hI : RunInv s) :
    RunInv ⟨m', setAdd s.held url⟩ := by
  obtain ⟨⟨hnd, hsync⟩, hheld, hcount⟩ := hI
  obtain ⟨rest, hq, hm⟩ := get_url_pop h
  have hnd' : url ∉ rest := by
    have := hnd
    rw [hq] at this
    exact (List.nodup_cons.mp this).1
  have hurlq : url ∈ s.mgr.queued := by
    refine (hsync url).mp ?_
    rw [hq]
    exact List.mem_cons_self url rest
  obtain ⟨hub, huv, huf⟩ := exclusiveCount_le_one_queued (hcount url) hurlq
  subst hm
  refine ⟨⟨?_, ?_⟩, ?_, ?_⟩
  · show rest.Nodup
    have := hnd
    rw [hq] at this
    exact (List.nodup_cons.mp this).2
  · intro u
    show u ∈ rest ↔ u ∈ setDiscard s.mgr.queued url
    rw [mem_setDiscard]
    constructor
    · intro hur
      have h1 : u ∈ s.mgr.global_queue := by
        rw [hq]
        exact List.mem_cons_of_mem _ hur
      refine ⟨(hsync u).mp h1, ?_⟩
      rintro rfl
      exact hnd' hur
    · rintro ⟨huq, hne⟩
      have h1 : u ∈ s.mgr.global_queue := (hsync u).mpr huq
      rw [hq] at h1
      rcases List.mem_cons.mp h1 with h1 | h1
      · exact absurd h1 hne
      · exact h1
  · intro u hu
    rw [mem_setAdd] at hu
    rcases hu with hu | rfl
    · rcases hheld u hu with h1 | h1 | h1
      · left
        show u ∈ setAdd s.mgr.being_crawled url
        rw [mem_setAdd]
        exact Or.inl h1
      · right; left; exact h1
      · right; right; exact h1
    · left
      show u ∈ setAdd s.mgr.being_crawled u
      rw [mem_setAdd]
      exact Or.inr rfl
  · intro u
    by_cases huu : u = url
    · subst huu
      unfold exclusiveCount
      have hq' : u ∉ setDiscard s.mgr.queued u := by
        rw [mem_setDiscard]
        rintro ⟨-, hne⟩
        exact hne rfl
      have hb' : u ∈ setAdd s.mgr.being_crawled u := by
        rw [mem_setAdd]
        exact Or.inr rfl
      simp [hq', hb', huv, huf]
    · have hcc : exclusiveCount
          { s.mgr with
            global_queue := rest
            queued := setDiscard s.mgr.queued url
            being_crawled := setAdd s.mgr.being_crawled url } u = exclusiveCount s.mgr u := by
        apply exclusiveCount_congr
        · show u ∈ setDiscard s.mgr.queued url ↔ u ∈ s.mgr.queued
          rw [mem_setDiscard]
          simp [huu]
        · show u ∈ setAdd s.mgr.being_crawled url ↔ u ∈ s.mgr.being_crawled
          rw [mem_setAdd]
          simp [huu]
        · exact Iff.rfl
      rw [hcc]
      exact hcount u

theorem runInv_markVisited (s : RunState) (url : String) (hu : url ∈ s.held)
    (hI : RunInv s) : RunInv ⟨mark_visited s.mgr url, s.held⟩ := by
  obtain ⟨⟨hnd, hsync⟩, hheld, hcount⟩ := hI
  have hnq : url ∉ s.mgr.queued := by
    rcases hheld url hu with hb | hv | hf
    · exact (exclusiveCount_le_one_bc (hcount url) hb).1
    · exact (exclusiveCount_le_one_term (hcount url) (Or.inl hv)).1
    · exact (exclusiveCount_le_one_term (hcount url) (Or.inr hf)).1
  refine ⟨⟨hnd, fun u => hsync u⟩, ?_, ?_⟩
  · intro u hu'
    rcases hheld u hu' with hb | hv | hf
    · by_cases huu : u = url
      · subst huu
        right; left
        show u ∈ setAdd s.mgr.visited u
        rw [mem_setAdd]
        exact Or.inr rfl
      · left
        show u ∈ setDiscard s.mgr.being_crawled url
        rw [mem_setDiscard]
        exact ⟨hb, huu⟩
    · right; left
      show u ∈ setAdd s.mgr.visited url
      rw [mem_setAdd]
      exact Or.inl hv
    · right; right
      exact hf
  · intro u
    by_cases huu : u = url
    · subst huu
      unfold exclusiveCount
      have h1 : u ∉ setDiscard s.mgr.being_crawled u := by
        rw [mem_setDiscard]
        rintro ⟨-, hne⟩
        exact hne rfl
      have h2 : u ∈ setAdd s.mgr.visited u := by
        rw [mem_setAdd]
        exact Or.inr rfl
      simp [mark_visited, hnq, h1, h2]
    · have hvis : u ∈ setAdd s.mgr.visited url ↔ u ∈ s.mgr.visited := by
        rw [mem_setAdd]
        simp [huu]
      have hcc : exclusiveCount (mark_visited s.mgr url) u = exclusiveCount s.mgr u := by
        apply exclusiveCount_congr
        · exact Iff.rfl
        · show u ∈ setDiscard s.mgr.being_crawled url ↔ u ∈ s.mgr.being_crawled
          rw [mem_setDiscard]
          simp [huu]
        · show (u ∈ setAdd s.mgr.visited url ∨ u ∈ s.mgr.failed_urls) ↔ _
          rw [hvis]
      rw [hcc]
      exact hcount u

theorem runInv_markFailed (s : RunState) (url : String) (hu : url ∈ s.held)
    (hI : RunInv s) : RunInv ⟨mark_failed s.mgr url, setDiscard s.held url⟩ := by
  obtain ⟨⟨hnd, hsync⟩, hheld, hcount⟩ := hI
  have hnq : url ∉ s.mgr.queued := by
    rcases hheld url hu with hb | hv | hf
    · exact (exclusiveCount_le_one_bc (hcount url) hb).1
    · exact (exclusiveCount_le_one_term (hcount url) (Or.inl hv)).1
    · exact (exclusiveCount_le_one_term (hcount url) (Or.inr hf)).1
  refine ⟨⟨hnd, fun u => hsync u⟩, ?_, ?_⟩
  · intro u hu'
    rw [mem_setDiscard] at hu'
    obtain ⟨hu1, hune⟩ := hu'
    rcases hheld u hu1 with hb | hv | hf
    · left
      show u ∈ setDiscard s.mgr.being_crawled url
      rw [mem_setDiscard]
      exact ⟨hb, hune⟩
    · right; left
      exact hv
    · right; right
      show u ∈ setAdd s.mgr.failed_urls url
      rw [mem_setAdd]
      exact Or.inl hf
  · intro u
    by_cases huu : u = url
    · subst huu
      unfold exclusiveCount
      have h1 : u ∉ setDiscard s.mgr.being_crawled u := by
        rw [mem_setDiscard]
        rintro ⟨-, hne⟩
        exact hne rfl
      have h2 : u ∈ setAdd s.mgr.failed_urls u := by
        rw [mem_setAdd]
        exact Or.inr rfl
      simp [mark_failed, hnq, h1, h2]
    · have hfail : u ∈ setAdd s.mgr.failed_urls url ↔ u ∈ s.mgr.failed_urls := by
        rw [mem_setAdd]
        simp [huu]
      have hcc : exclusiveCount (mark_failed s.mgr url) u = exclusiveCount s.mgr u := by
        apply exclusiveCount_congr
        · exact Iff.rfl
        · show u ∈ setDiscard s.mgr.being_crawled url ↔ u ∈ s.mgr.being_crawled
          rw [mem_setDiscard]
          simp [huu]
        · show (u ∈ s.mgr.visited ∨ u ∈ setAdd s.mgr.failed_urls url) ↔ _
          rw [hfail]
      rw [hcc]
      exact hcount u

theorem runInv_iterDone (s : RunState) (url : String)
    (hI : RunInv s) : RunInv ⟨s.mgr, setDiscard s.held url⟩ := by
  obtain ⟨hqs, hheld, hcount⟩ := hI
  refine ⟨hqs, ?_, hcount⟩
  intro u hu'
  rw [mem_setDiscard] at hu'
  exact hheld u hu'.1

theorem runInv_step {s s' : RunState} (h : Step s s') (hI : RunInv s) : RunInv s' := by
  cases h with
  | submit url a l => exact runInv_submit s url a l hI
  | reshuffle sh hp => exact runInv_reshuffle s sh hp hI
  | take url m' hg => exact runInv_take s url m' hg hI
  | markVisited url hu => exact runInv_markVisited s url hu hI
  | markFailed url hu => exact runInv_markFailed s url hu hI
  | iterDone url hu => exact runInv_iterDone s url hI

theorem runInv_reachable {s s' : RunState} (hI : RunInv s)
    (hr : Relation.ReflTransGen Step s s') : RunInv s' := by
  induction hr with
  | refl => exact hI
  | tail _ hstep ih => exact runInv_step hstep ih

theorem runInv_init (dr : Bool) : RunInv ⟨URLManager.init dr, []⟩ := by
  refine ⟨⟨List.nodup_nil, ?_⟩, ?_, ?_⟩
  · intro u
    simp [URLManager.init]
  · intro u hu
    simp at hu
  · intro u
    simp [URLManager.init, exclusiveCount]

/-! ## Failed URLs persist; stranded URLs stay stranded -/

theorem step_failed_mono {s s' : RunState} (h : Step s s') {u : String}
    (hu : u ∈ s.mgr.failed_urls) : u ∈ s'.mgr.failed_urls := by
  cases h with
  | submit url a l =>
      rcases add_url_eq_or s.mgr url a l with heq | ⟨-, -, -, -, -, -, -, -, e5⟩
      · show u ∈ (add_url s.mgr url a l).failed_urls
        rw [heq]
        exact hu
      · show u ∈ (add_url s.mgr url a l).failed_urls
        rw [e5]
        exact hu
  | reshuffle sh hp => exact hu
  | take url m' hg =>
      obtain ⟨rest, hq, hm⟩ := get_url_pop hg
      rw [hm]
      exact hu
  | markVisited url hu' => exact hu
  | markFailed url hu' =>
      show u ∈ setAdd s.mgr.failed_urls url
      rw [mem_setAdd]
      exact Or.inl hu
  | iterDone url hu' => exact hu

theorem stranded_step {url : String} {s s' : RunState} (h : Step s s')
    (hs : Stranded url s) : Stranded url s' := by
  obtain ⟨hb, hq, hh, hv, hf⟩ := hs
  cases h with
  | submit u a l =>
      rcases add_url_eq_or s.mgr u a l with heq | ⟨-, hbu, -, -, e1, e2, e3, e4, e5⟩
      · refine ⟨?_, ?_, hh, ?_, ?_⟩
        · show url ∈ (add_url s.mgr u a l).being_crawled
          rw [heq]; exact hb
        · show url ∉ (add_url s.mgr u a l).global_queue
          rw [heq]; exact hq
        · show url ∉ (add_url s.mgr u a l).visited
          rw [heq]; exact hv
        · show url ∉ (add_url s.mgr u a l).failed_urls
          rw [heq]; exact hf
      · have hne : u ≠ url := by
          rintro rfl
          exact hbu hb
        refine ⟨?_, ?_, hh, ?_, ?_⟩
        · show url ∈ (add_url s.mgr u a l).being_crawled
          rw [e4]; exact hb
        · show url ∉ (add_url s.mgr u a l).global_queue
          rw [e2]
          intro hm
          rcases List.mem_append.mp hm with hm | hm
          · exact hq hm
          · exact hne (List.mem_singleton.mp hm).symm
        · show url ∉ (add_url s.mgr u a l).visited
          rw [e3]; exact hv
        · show url ∉ (add_url s.mgr u a l).failed_urls
          rw [e5]; exact hf
  | reshuffle sh hp =>
      refine ⟨hb, ?_, hh, hv, hf⟩
      show url ∉ sh s.mgr.global_queue
      intro hm
      exact hq (hp.mem_iff.mp hm)
  | take u m' hg =>
      obtain ⟨rest, hqe, hm⟩ := get_url_pop hg
      have hne : u ≠ url := by
        rintro rfl
        refine hq ?_
        rw [hqe]
        exact List.mem_cons_self _ _
      subst hm
      refine ⟨?_, ?_, ?_, hv, hf⟩
      · show url ∈ setAdd s.mgr.being_crawled u
        rw [mem_setAdd]
        exact Or.inl hb
      · show url ∉ rest
        intro hm2
        refine hq ?_
        rw [hqe]
        exact List.mem_cons_of_mem _ hm2
      · show url ∉ setAdd s.held u
        rw [mem_setAdd]
        rintro (h1 | h1)
        · exact hh h1
        · exact hne h1.symm
  | markVisited u hu =>
      have hne : u ≠ url := fun he => hh (he ▸ hu)
      refine ⟨?_, hq, hh, ?_, hf⟩
      · show url ∈ setDiscard s.mgr.being_crawled u
        rw [mem_setDiscard]
        exact ⟨hb, fun he => hne he.symm⟩
      · show url ∉ setAdd s.mgr.visited u
        rw [mem_setAdd]
        rintro (h1 | h1)
        · exact hv h1
        · exact hne h1.symm
  | markFailed u hu =>
      have hne : u ≠ url := fun he => hh (he ▸ hu)
      refine ⟨?_, hq, ?_, hv, ?_⟩
      · show url ∈ setDiscard s.mgr.being_crawled u
        rw [mem_setDiscard]
        exact ⟨hb, fun he => hne he.symm⟩
      · show url ∉ setDiscard s.held u
        intro hm
        rw [mem_setDiscard] at hm
        exact hh hm.1
      · show url ∉ setAdd s.mgr.failed_urls u
        rw [mem_setAdd]
        rintro (h1 | h1)
        · exact hf h1
        · exact hne h1.symm
  | iterDone u hu =>
      refine ⟨hb, hq, ?_, hv, hf⟩
      show url ∉ setDiscard s.held u
      intro hm
      rw [mem_setDiscard] at hm
      exact hh hm.1

theorem stranded_reachable {url : String} {s s' : RunState}
    (hs : Stranded url s) (hr : Relation.ReflTransGen Step s s') : Stranded url s' := by
  induction hr with
  | refl => exact hs
  | tail _ hstep ih => exact stranded_step hstep ih


/-! ## Lemmas about the fingerprint dictionary -/

theorem dictGet_dictInsert (key : String) (v : Nat) (l : List (String × Nat)) :
    dictGet key (dictInsert key v l) = some v := by
  induction l with
  | nil => simp [dictInsert, dictGet]
  | cons e rest ih =>
      unfold dictInsert
      by_cases he : e.1 = key
      · rw [if_pos he]
        simp [dictGet]
      · rw [if_neg he]
        unfold dictGet
        rw [if_neg he]
        exact ih

theorem keys_dictInsert (key : String) (v : Nat) (l : List (String × Nat)) (x : String) :
    x ∈ (dictInsert key v l).map Prod.fst ↔ x ∈ l.map Prod.fst ∨ x = key := by
  induction l with
  | nil => simp [dictInsert]
  | cons e rest ih =>
      unfold dictInsert
      by_cases he : e.1 = key
      · rw [if_pos he]
        simp [he]
        tauto
      · rw [if_neg he]
        simp only [List.map_cons, List.mem_cons, ih]
        tauto

theorem keys_nodup_dictInsert (key : String) (v : Nat) (l : List (String × Nat))
    (h : (l.map Prod.fst).Nodup) : ((dictInsert key v l).map Prod.fst).Nodup := by
  induction l with
  | nil => simp [dictInsert]
  | cons e rest ih =>
      unfold dictInsert
      by_cases he : e.1 = key
      · rw [if_pos he]
        simp only [List.map_cons] at h ⊢
        rw [← he]
        exact h
      · rw [if_neg he]
        simp only [List.map_cons, List.nodup_cons] at h ⊢
        obtain ⟨h1, h2⟩ := h
        refine ⟨?_, ih h2⟩
        rw [keys_dictInsert]
        rintro (hm | rfl)
        · exact h1 hm
        · exact he rfl

/-! ## Claim theorems -/

/-- C2 counterexample: the worker's exception path puts a URL in BOTH
`visited` and `failed_urls`.  The state `m5` is reached from a fresh instance
by the source's own operation sequence — submit `"u"`, take it, `mark_visited`
in the accept path (crawler.py line 123), then an exception later in the same
iteration (lines 126-135) reaching `mark_failed` (lines 139-140) — and in it
`"u"` is a member of both terminal sets, so its four-set membership count is
`2`, refuting exclusivity as claimed. -/
theorem state_exclusivity_counterexample :
    Relation.ReflTransGen Step ⟨URLManager.init false, []⟩ ⟨m5, []⟩ ∧
      "u" ∈ m5.visited ∧ "u" ∈ m5.failed_urls ∧ stateCount m5 "u" = 2 := by
  have t1 : Step ⟨URLManager.init false, []⟩ ⟨m1, []⟩ :=
    Step.submit ⟨URLManager.init false, []⟩ "u" true true
  have t2 : Step ⟨m1, []⟩ ⟨m2, ["u"]⟩ := Step.take ⟨m1, []⟩ "u" m2 rfl
  have t3 : Step ⟨m2, ["u"]⟩ ⟨m4, ["u"]⟩ := Step.markVisited ⟨m2, ["u"]⟩ "u" (by decide)
  have t4 : Step ⟨m4, ["u"]⟩ ⟨m5, []⟩ := Step.markFailed ⟨m4, ["u"]⟩ "u" (by decide)
  refine ⟨Relation.ReflTransGen.tail (Relation.ReflTransGen.tail
    (Relation.ReflTransGen.tail (Relation.ReflTransGen.single t1) t2) t3) t4, ?_, ?_, ?_⟩
    <;> decide

/-- C2 amended: along any run — any interleaving of `add_url` (submit), the
reshuffle and pop phases of `get_url` (take), and the worker loop's per-URL
processing including its exception path (`mark_visited` possibly followed by
`mark_failed` in the same iteration) — starting from any state satisfying the
run invariant (such as a fresh instance), every URL lies in at most one of
the three buckets \x7bqueued, in-flight, terminal\x7d where terminal is
`visited ∪ failed`: it is never simultaneously queued and in-flight, never
queued and terminal, and never in-flight and terminal.  `visited` and
`failed_urls` themselves are NOT mutually exclusive: the exception path after
`mark_visited` can leave a URL in both (see the counterexample). -/
theorem state_exclusivity (s₀ s : RunState) (h0 : RunInv s₀)
    (hr : Relation.ReflTransGen Step s₀ s) (url : String) :
    exclusiveCount s.mgr url ≤ 1 ∧
      ¬(url ∈ s.mgr.queued ∧ url ∈ s.mgr.being_crawled) ∧
      ¬(url ∈ s.mgr.queued ∧ (url ∈ s.mgr.visited ∨ url ∈ s.mgr.failed_urls)) ∧
      ¬(url ∈ s.mgr.being_crawled ∧ (url ∈ s.mgr.visited ∨ url ∈ s.mgr.failed_urls)) := by
  obtain ⟨-, -, hcount⟩ := runInv_reachable h0 hr
  refine ⟨hcount url, ?_, ?_, ?_⟩
  · rintro ⟨hq, hb⟩
    have hc := hcount url
    unfold exclusiveCount at hc
    rw [if_pos hq, if_pos hb] at hc
    omega
  · rintro ⟨hq, ht⟩
    have hc := hcount url
    unfold exclusiveCount at hc
    rw [if_pos hq, if_pos ht] at hc
    omega
  · rintro ⟨hb, ht⟩
    have hc := hcount url
    unfold exclusiveCount at hc
    rw [if_pos hb, if_pos ht] at hc
    omega

/-- Witness for C2 (amended): the invariant holds in the fresh state, and in
the double-marked state `m5` — reached through the exception path after
`mark_visited` — the amended exclusivity conclusions hold for `"u"`. -/
theorem state_exclusivity_witness :
    RunInv ⟨URLManager.init false, []⟩ ∧
      (exclusiveCount m5 "u" ≤ 1 ∧
        ¬("u" ∈ m5.queued ∧ "u" ∈ m5.being_crawled) ∧
        ¬("u" ∈ m5.queued ∧ ("u" ∈ m5.visited ∨ "u" ∈ m5.failed_urls)) ∧
        ¬("u" ∈ m5.being_crawled ∧ ("u" ∈ m5.visited ∨ "u" ∈ m5.failed_urls))) := by
  have t1 : Step ⟨URLManager.init false, []⟩ ⟨m1, []⟩ :=
    Step.submit ⟨URLManager.init false, []⟩ "u" true true
  have t2 : Step ⟨m1, []⟩ ⟨m2, ["u"]⟩ := Step.take ⟨m1, []⟩ "u" m2 rfl
  have t3 : Step ⟨m2, ["u"]⟩ ⟨m4, ["u"]⟩ := Step.markVisited ⟨m2, ["u"]⟩ "u" (by decide)
  have t4 : Step ⟨m4, ["u"]⟩ ⟨m5, []⟩ := Step.markFailed ⟨m4, ["u"]⟩ "u" (by decide)
  exact ⟨runInv_init false,
    state_exclusivity ⟨URLManager.init false, []⟩ ⟨m5, []⟩ (runInv_init false)
      (Relation.ReflTransGen.tail (Relation.ReflTransGen.tail
        (Relation.ReflTransGen.tail (Relation.ReflTransGen.single t1) t2) t3) t4) "u"⟩

/-- C6: no within-run retry.  Once a URL is in `failed_urls` in a state
satisfying the run invariant, then in every state reachable by further run
steps it is still failed, it is never on the work queue (so it was never
re-enqueued), and `get_url` can never return it. -/
theorem no_within_run_retry (s s' : RunState) (url : String) (hI : RunInv s)
    (hf : url ∈ s.mgr.failed_urls) (hr : Relation.ReflTransGen Step s s') :
    url ∈ s'.mgr.failed_urls ∧ url ∉ s'.mgr.global_queue ∧
      ∀ v m', get_url s'.mgr false (fun l => l) = (some v, m') → v ≠ url := by
  have key : RunInv s' ∧ url ∈ s'.mgr.failed_urls := by
    induction hr with
    | refl => exact ⟨hI, hf⟩
    | tail _ hstep ih => exact ⟨runInv_step hstep ih.1, step_failed_mono hstep ih.2⟩
  obtain ⟨⟨⟨-, hsync⟩, -, hcount⟩, hf'⟩ := key
  have hnq : url ∉ s'.mgr.queued := by
    intro hq
    have hc := hcount url
    unfold exclusiveCount at hc
    rw [if_pos hq, if_pos (Or.inr hf')] at hc
    omega
  have hnqueue : url ∉ s'.mgr.global_queue := fun h => hnq ((hsync url).mp h)
  refine ⟨hf', hnqueue, ?_⟩
  intro v m' hg
  obtain ⟨rest, hqe, -⟩ := get_url_pop hg
  rintro rfl
  refine hnqueue ?_
  rw [hqe]
  exact List.mem_cons_self _ _

/-- Witness for C6: after submit/take/markFailed of `"u"` from a fresh
instance, `"u"` is failed, off the queue, and unobtainable from `get_url`. -/
theorem no_within_run_retry_witness :
    RunInv ⟨m3, ([] : List String)⟩ ∧ "u" ∈ m3.failed_urls ∧
      ("u" ∈ m3.failed_urls ∧ "u" ∉ m3.global_queue ∧
        ∀ v m', get_url m3 false (fun l => l) = (some v, m') → v ≠ "u") := by
  have t1 : Step ⟨URLManager.init false, []⟩ ⟨m1, []⟩ :=
    Step.submit ⟨URLManager.init false, []⟩ "u" true true
  have t2 : Step ⟨m1, []⟩ ⟨m2, ["u"]⟩ := Step.take ⟨m1, []⟩ "u" m2 rfl
  have t3 : Step ⟨m2, ["u"]⟩ ⟨m3, []⟩ := Step.markFailed ⟨m2, ["u"]⟩ "u" (by decide)
  have hreach : Relation.ReflTransGen Step ⟨URLManager.init false, []⟩ ⟨m3, []⟩ :=
    Relation.ReflTransGen.tail
      (Relation.ReflTransGen.tail (Relation.ReflTransGen.single t1) t2) t3
  have hinv : RunInv ⟨m3, []⟩ := runInv_reachable (runInv_init false) hreach
  exact ⟨hinv, by decide,
    no_within_run_retry ⟨m3, []⟩ ⟨m3, []⟩ "u" hinv (by decide) Relation.ReflTransGen.refl⟩

/-- C10: restored in-flight URLs are stranded.  After `load_state` of a
checkpoint on a fresh instance, a URL recorded as in-flight (and not also
recorded as queued, visited or failed) is back in `being_crawled` but is never
on the work queue, is held by no worker, is never returned by `get_url`, and
never becomes visited or failed in the new run. -/
theorem restored_inflight_stranded (cp : CheckpointData) (dr : Bool) (url : String)
    (h1 : url ∈ cp.being_crawled) (h2 : url ∉ cp.queued) (h3 : url ∉ cp.visited)
    (h4 : url ∉ cp.failed) (s' : RunState)
    (hr : Relation.ReflTransGen Step ⟨load_state (URLManager.init dr) cp, []⟩ s') :
    url ∈ s'.mgr.being_crawled ∧ url ∉ s'.mgr.global_queue ∧ url ∉ s'.held ∧
      url ∉ s'.mgr.visited ∧ url ∉ s'.mgr.failed_urls ∧
      ∀ v m', get_url s'.mgr false (fun l => l) = (some v, m') → v ≠ url := by
  have base : Stranded url ⟨load_state (URLManager.init dr) cp, []⟩ := by
    refine ⟨?_, ?_, ?_, ?_, ?_⟩
    · show url ∈ pySet cp.being_crawled
      rw [mem_pySet]
      exact h1
    · show url ∉ pySet cp.queued
      intro hm
      exact h2 (mem_pySet.mp hm)
    · simp
    · show url ∉ pySetUpdate (pySet cp.visited) (pySet cp.failed)
      intro hm
      rcases mem_pySetUpdate.mp hm with hm | hm
      · exact h3 (mem_pySet.mp hm)
      · exact h4 (mem_pySet.mp hm)
    · show url ∉ ([] : List String)
      simp
  obtain ⟨hb, hq, hh, hv, hf⟩ := stranded_reachable base hr
  refine ⟨hb, hq, hh, hv, hf, ?_⟩
  intro v m' hg
  obtain ⟨rest, hqe, -⟩ := get_url_pop hg
  rintro rfl
  refine hq ?_
  rw [hqe]
  exact List.mem_cons_self _ _

/-- Witness for C10: restoring the checkpoint `cp10` strands its in-flight
URL `"s"`, also after a further submit step. -/
theorem restored_inflight_stranded_witness :
    ("s" ∈ cp10.being_crawled ∧ "s" ∉ cp10.queued ∧ "s" ∉ cp10.visited ∧
        "s" ∉ cp10.failed) ∧
      ("s" ∈ (add_url (load_state (URLManager.init false) cp10) "w" true true).being_crawled ∧
        "s" ∉ (add_url (load_state (URLManager.init false) cp10) "w" true true).global_queue ∧
        "s" ∉ ([] : List String) ∧
        "s" ∉ (add_url (load_state (URLManager.init false) cp10) "w" true true).visited ∧
        "s" ∉ (add_url (load_state (URLManager.init false) cp10) "w" true true).failed_urls ∧
        ∀ v m', get_url (add_url (load_state (URLManager.init false) cp10) "w" true true)
          false (fun l => l) = (some v, m') → v ≠ "s") :=
  ⟨⟨by decide, by decide, by decide, by decide⟩,
    restored_inflight_stranded cp10 false "s" (by decide) (by decide) (by decide) (by decide)
      ⟨add_url (load_state (URLManager.init false) cp10) "w" true true, []⟩
      (Relation.ReflTransGen.single
        (Step.submit ⟨load_state (URLManager.init false) cp10, []⟩ "w" true true))⟩

/-- C1 counterexample: in the reachable state `m3` the URL `"u"` is failed,
yet after `save_state`/`load_state` into a fresh instance it is NOT in the
restored `queued` set (it is merged into `visited` instead), refuting the
claim that every checkpointed failed URL is a member of the restored queued
set. -/
theorem checkpoint_restore_counterexample :
    "u" ∈ m3.failed_urls ∧ "u" ∉ (restore_roundtrip false m3).queued ∧
      "u" ∈ (restore_roundtrip false m3).visited ∧
      "u" ∉ (restore_roundtrip false m3).global_queue := by
  refine ⟨?_, ?_, ?_, ?_⟩ <;> decide

/-- C1 amended: `save_state` followed by `load_state` on a fresh instance
reproduces the `queued` and `being_crawled` sets and refills the work queue
from `queued`; the checkpointed failed URLs are merged into the restored
`visited` set — not into `queued` — exactly once (the restored sets are
duplicate-free), the restored `failed_urls` set is empty, and a failed URL
that was not also queued is absent from the restored queue and queued set. -/
theorem checkpoint_restore (st : URLManager) (dr : Bool) (u : String) :
    (∀ v, v ∈ (restore_roundtrip dr st).queued ↔ v ∈ st.queued) ∧
      (∀ v, v ∈ (restore_roundtrip dr st).being_crawled ↔ v ∈ st.being_crawled) ∧
      (∀ v, v ∈ (restore_roundtrip dr st).visited ↔
        (v ∈ st.visited ∨ v ∈ st.failed_urls)) ∧
      (restore_roundtrip dr st).failed_urls = [] ∧
      (∀ v, v ∈ (restore_roundtrip dr st).global_queue ↔ v ∈ st.queued) ∧
      (u ∈ st.failed_urls → u ∈ (restore_roundtrip dr st).visited) ∧
      (u ∈ st.failed_urls → u ∉ st.queued →
        u ∉ (restore_roundtrip dr st).queued ∧
          u ∉ (restore_roundtrip dr st).global_queue) := by
  have hq : ∀ v, v ∈ (restore_roundtrip dr st).queued ↔ v ∈ st.queued := by
    intro v
    show v ∈ pySet st.queued ↔ v ∈ st.queued
    exact mem_pySet
  have hv : ∀ v, v ∈ (restore_roundtrip dr st).visited ↔
      (v ∈ st.visited ∨ v ∈ st.failed_urls) := by
    intro v
    show v ∈ pySetUpdate (pySet st.visited) (pySet st.failed_urls) ↔ _
    rw [mem_pySetUpdate, mem_pySet, mem_pySet]
  have hgq : ∀ v, v ∈ (restore_roundtrip dr st).global_queue ↔ v ∈ st.queued := by
    intro v
    show v ∈ pySet st.queued ↔ v ∈ st.queued
    exact mem_pySet
  refine ⟨hq, ?_, hv, rfl, hgq, ?_, ?_⟩
  · intro v
    show v ∈ pySet st.being_crawled ↔ v ∈ st.being_crawled
    exact mem_pySet
  · intro hu
    exact (hv u).mpr (Or.inr hu)
  · intro hu hnq
    exact ⟨fun hm => hnq ((hq u).mp hm), fun hm => hnq ((hgq u).mp hm)⟩

/-- Witness for C1 (amended): applied to the concrete state `stC1`, whose
failed URL `"f"` is not queued: it lands in the restored visited set and is
absent from the restored queued set and queue. -/
theorem checkpoint_restore_witness :
    "f" ∈ stC1.failed_urls ∧ "f" ∉ stC1.queued ∧
      "f" ∈ (restore_roundtrip false stC1).visited ∧
      ("f" ∉ (restore_roundtrip false stC1).queued ∧
        "f" ∉ (restore_roundtrip false stC1).global_queue) :=
  ⟨by decide, by decide,
    (checkpoint_restore stC1 false "f").2.2.2.2.2.1 (by decide),
    (checkpoint_restore stC1 false "f").2.2.2.2.2.2 (by decide) (by decide)⟩

/-- C4: idempotent submission.  `add_url` of a URL already in any of the four
lifecycle sets is a no-op on the whole manager state; and submitting a
previously unseen URL twice (before it is taken), with the first call passing
the domain cap and robots gates, leaves exactly one entry for it in the work
queue. -/
theorem add_url_idempotent :
    (∀ (m : URLManager) (url : String) (allowed lottery : Bool),
        (url ∈ m.visited ∨ url ∈ m.being_crawled ∨ url ∈ m.failed_urls ∨ url ∈ m.queued) →
        add_url m url allowed lottery = m) ∧
      (∀ (m : URLManager) (url : String) (a1 l1 a2 l2 : Bool),
        url ∉ m.visited → url ∉ m.being_crawled → url ∉ m.failed_urls → url ∉ m.queued →
        url ∉ m.global_queue →
        (m.domain_scrape_tracker (getDomain url) < m.domain_scrape_limit ∨ l1 = true) →
        (a1 = true ∨ m.disable_robots = true) →
        (add_url (add_url m url a1 l1) url a2 l2).global_queue.count url = 1) := by
  constructor
  · intro m url allowed lottery h
    unfold add_url
    rw [if_pos h]
  · intro m url a1 l1 a2 l2 hv hb hf hq hgq hcap hrob
    have h1 : ¬(url ∈ m.visited ∨ url ∈ m.being_crawled ∨ url ∈ m.failed_urls ∨
        url ∈ m.queued) := by
      push_neg
      exact ⟨hv, hb, hf, hq⟩
    have h2 : ¬(m.domain_scrape_tracker (getDomain url) ≥ m.domain_scrape_limit ∧
        ¬(l1 = true)) := by
      rcases hcap with h | h
      · rintro ⟨hc, -⟩
        omega
      · rintro ⟨-, hl⟩
        exact hl h
    have h3 : ¬(¬(a1 = true) ∧ ¬(m.disable_robots = true)) := by
      rcases hrob with h | h
      · rintro ⟨ha, -⟩
        exact ha h
      · rintro ⟨-, hd⟩
        exact hd h
    have hstep : add_url m url a1 l1 =
        { m with
          domain_scrape_tracker := fun d =>
            if d = getDomain url then m.domain_scrape_tracker d + 1
            else m.domain_scrape_tracker d
          global_queue := m.global_queue ++ [url]
          queued := setAdd m.queued url } := by
      unfold add_url
      rw [if_neg h1, if_neg h2, if_neg h3]
    have hmem : url ∈ (add_url m url a1 l1).queued := by
      rw [hstep]
      show url ∈ setAdd m.queued url
      rw [mem_setAdd]
      exact Or.inr rfl
    have hnoop : add_url (add_url m url a1 l1) url a2 l2 = add_url m url a1 l1 := by
      generalize add_url m url a1 l1 = m1' at hmem ⊢
      unfold add_url
      rw [if_pos (Or.inr (Or.inr (Or.inr hmem)))]
    rw [hnoop, hstep]
    show (m.global_queue ++ [url]).count url = 1
    rw [List.count_append, List.count_eq_zero.mpr hgq]
    simp

/-- Witness for C4: submitting `"u"` when it is already visited (state `mVis`)
changes nothing, and double submission of the unseen `"u"` to a fresh manager
yields a single queue entry. -/
theorem add_url_idempotent_witness :
    ("u" ∈ mVis.visited ∨ "u" ∈ mVis.being_crawled ∨ "u" ∈ mVis.failed_urls ∨
        "u" ∈ mVis.queued) ∧
      add_url mVis "u" true true = mVis ∧
      (add_url (add_url (URLManager.init false) "u" true true) "u" true
          true).global_queue.count "u" = 1 :=
  ⟨Or.inl (by decide),
    add_url_idempotent.1 mVis "u" true true (Or.inl (by decide)),
    add_url_idempotent.2 (URLManager.init false) "u" true true true true (by decide)
      (by decide) (by decide) (by decide) (by decide) (Or.inr rfl) (Or.inl rfl)⟩

/-- C5 counterexample: in the reachable state `m2` the URL `"u"` is in-flight
and the queue is empty, yet `has_pending_urls` returns `false` — refuting the
claim that it returns true whenever some URL is in-flight. -/
theorem has_pending_counterexample :
    "u" ∈ m2.being_crawled ∧ m2.global_queue = [] ∧ has_pending_urls m2 = false := by
  refine ⟨?_, ?_, ?_⟩ <;> decide

/-- C5 amended: `has_pending_urls` returns true iff the work queue is
non-empty or the `queued` set is non-empty; it does NOT consult the in-flight
set, so in the state `m2` (queue empty, one URL in-flight) it returns
false. -/
theorem has_pending_iff :
    (∀ m : URLManager, has_pending_urls m = true ↔
        (m.global_queue ≠ [] ∨ m.queued ≠ [])) ∧
      (has_pending_urls m2 = false ∧ m2.being_crawled ≠ [] ∧ m2.global_queue = []) := by
  constructor
  · intro m
    unfold has_pending_urls
    simp [List.isEmpty_iff]
  · refine ⟨?_, ?_, ?_⟩ <;> decide

/-- C9: the drain-and-reshuffle inside `get_url`, given that `random.shuffle`
permutes its input (the library guarantee), leaves the multiset of queued URLs
in the work queue unchanged and does not touch the four lifecycle sets. -/
theorem reshuffle_preserves_queue (m : URLManager) (shuffle : List String → List String)
    (h : (shuffle m.global_queue).Perm m.global_queue) :
    ((reshuffleQueue shuffle m).global_queue : Multiset String) =
        (m.global_queue : Multiset String) ∧
      (reshuffleQueue shuffle m).queued = m.queued ∧
      (reshuffleQueue shuffle m).visited = m.visited ∧
      (reshuffleQueue shuffle m).being_crawled = m.being_crawled ∧
      (reshuffleQueue shuffle m).failed_urls = m.failed_urls := by
  refine ⟨?_, rfl, rfl, rfl, rfl⟩
  show ((shuffle m.global_queue : List String) : Multiset String) = _
  exact Multiset.coe_eq_coe.mpr h

/-- Witness for C9: reversing the two-element queue of `mShuf` is a
permutation, and the reshuffled queue carries the same multiset while all
four sets are untouched. -/
theorem reshuffle_preserves_queue_witness :
    (mShuf.global_queue.reverse.Perm mShuf.global_queue) ∧
      ((reshuffleQueue List.reverse mShuf).global_queue : Multiset String) =
        (mShuf.global_queue : Multiset String) ∧
      (reshuffleQueue List.reverse mShuf).queued = mShuf.queued :=
  ⟨by decide,
    (reshuffle_preserves_queue mShuf List.reverse (by decide)).1,
    (reshuffle_preserves_queue mShuf List.reverse (by decide)).2.1⟩

/-- C3: tryAdmit contract.  `add_page` computes the fingerprint of the text;
if some stored fingerprint lies within Hamming distance `k` it returns false
and leaves the manager unchanged, otherwise it stores the fingerprint under
the page id (in the hash map and the index) and returns true; consequently,
starting from an empty manager, for two texts whose fingerprints are within
distance `k` the second call returns false, and for two texts with distance
greater than `k` both calls return true. -/
theorem add_page_contract (ch : String → Nat) :
    (∀ (m : SimhashManager) (id t : String),
        (∃ e ∈ m.index, hammingDistance m.f e.2 (ch t) ≤ m.k) →
        add_page ch m id t = (false, m)) ∧
      (∀ (m : SimhashManager) (id t : String),
        (∀ e ∈ m.index, m.k < hammingDistance m.f e.2 (ch t)) →
        (add_page ch m id t).1 = true ∧
          dictGet id (add_page ch m id t).2.hashes = some (ch t) ∧
          (id, ch t) ∈ (add_page ch m id t).2.index) ∧
      (∀ (k f : Nat) (id1 id2 t1 t2 : String),
        hammingDistance f (ch t1) (ch t2) ≤ k →
        (add_page ch (SimhashManager.init k f) id1 t1).1 = true ∧
          (add_page ch (add_page ch (SimhashManager.init k f) id1 t1).2 id2 t2).1 = false) ∧
      (∀ (k f : Nat) (id1 id2 t1 t2 : String),
        k < hammingDistance f (ch t1) (ch t2) →
        (add_page ch (SimhashManager.init k f) id1 t1).1 = true ∧
          (add_page ch (add_page ch (SimhashManager.init k f) id1 t1).2 id2 t2).1 = true) := by
  have hfirst : ∀ (k f : Nat) (id1 t1 : String),
      add_page ch (SimhashManager.init k f) id1 t1 =
        (true, { k := k, f := f, hashes := [(id1, ch t1)], index := [(id1, ch t1)] }) := by
    intro k f id1 t1
    simp [add_page, get_near_dups, SimhashManager.init, dictInsert]
  refine ⟨?_, ?_, ?_, ?_⟩
  · rintro m id t ⟨e, he, hd⟩
    have hmem : e.1 ∈ get_near_dups m (ch t) :=
      List.mem_map_of_mem _ (List.mem_filter.mpr ⟨he, decide_eq_true hd⟩)
    have hemp : (get_near_dups m (ch t)).isEmpty = false := by
      rw [Bool.eq_false_iff]
      intro htrue
      rw [List.isEmpty_iff.mp htrue] at hmem
      cases hmem
    simp [add_page, hemp]
  · intro m id t h
    have hnil : get_near_dups m (ch t) = [] := by
      unfold get_near_dups
      rw [List.map_eq_nil_iff, List.filter_eq_nil_iff]
      intro e he
      simp only [decide_eq_true_eq]
      exact not_le.mpr (h e he)
    have hres : add_page ch m id t =
        (true, { m with
          hashes := dictInsert id (ch t) m.hashes
          index := m.index ++ [(id, ch t)] }) := by
      simp [add_page, hnil]
    rw [hres]
    refine ⟨rfl, ?_, ?_⟩
    · exact dictGet_dictInsert id (ch t) m.hashes
    · simp
  · intro k f id1 id2 t1 t2 hd
    refine ⟨by rw [hfirst], ?_⟩
    rw [hfirst]
    have hdec : decide (hammingDistance f (ch t1) (ch t2) ≤ k) = true := decide_eq_true hd
    simp [add_page, get_near_dups, hdec]
  · intro k f id1 id2 t1 t2 hd
    refine ⟨by rw [hfirst], ?_⟩
    rw [hfirst]
    have hdec : decide (hammingDistance f (ch t1) (ch t2) ≤ k) = false :=
      decide_eq_false (not_le.mpr hd)
    simp [add_page, get_near_dups, dictInsert, hdec]

/-- Witness for C3: with the concrete fingerprint function `chashW`
(`"a" ↦ 0`, `"b" ↦ 1`, otherwise `15`), the near pair is rejected on the
second call, the far pair is admitted twice, a stored near-duplicate forces a
rejecting no-op, and a fresh admission is stored in the hash map. -/
theorem add_page_contract_witness :
    hammingDistance 64 (chashW "a") (chashW "b") ≤ 3 ∧
      (add_page chashW (add_page chashW (SimhashManager.init 3 64) "p1" "a").2 "p2" "b").1 =
        false ∧
      3 < hammingDistance 64 (chashW "a") (chashW "c") ∧
      (add_page chashW (add_page chashW (SimhashManager.init 3 64) "q1" "a").2 "q2" "c").1 =
        true ∧
      add_page chashW (add_page chashW (SimhashManager.init 3 64) "p1" "a").2 "p3" "b" =
        (false, (add_page chashW (SimhashManager.init 3 64) "p1" "a").2) ∧
      dictGet "q2" (add_page chashW (add_page chashW (SimhashManager.init 3 64) "q1"
        "a").2 "q2" "c").2.hashes = some (chashW "c") :=
  ⟨by decide,
    ((add_page_contract chashW).2.2.1 3 64 "p1" "p2" "a" "b" (by decide)).2,
    by decide,
    ((add_page_contract chashW).2.2.2 3 64 "q1" "q2" "a" "c" (by decide)).2,
    (add_page_contract chashW).1 _ "p3" "b" ⟨("p1", chashW "a"), by decide, by decide⟩,
    ((add_page_contract chashW).2.1 _ "q2" "c" (by decide)).2.1⟩

/-- C8 counterexample: two successful admissions under the same page id
(`"p"`, with fingerprints `0` and `15` at distance `4 > 3`) leave TWO
fingerprints associated with `"p"` in the index, refuting the claim that each
page identifier maps to at most one fingerprint in the index. -/
theorem fingerprint_index_counterexample :
    (add_page chash0 (SimhashManager.init 3 64) "p" "a").1 = true ∧
      (add_page chash0 (add_page chash0 (SimhashManager.init 3 64) "p" "a").2 "p" "b").1 =
        true ∧
      (add_page chash0 (add_page chash0 (SimhashManager.init 3 64) "p" "a").2 "p"
          "b").2.index = [("p", 0), ("p", 15)] ∧
      ((add_page chash0 (add_page chash0 (SimhashManager.init 3 64) "p" "a").2 "p"
          "b").2.index.map Prod.fst).count "p" = 2 := by
  refine ⟨?_, ?_, ?_, ?_⟩ <;> decide

/-- C8 amended: across `add_page` calls the index only ever grows (every call
appends to it, no entry is removed); a page id NOT already present in the
index gains at most one index entry per call; and the `hashes` map keeps at
most one fingerprint per page id (an overwrite on id reuse).  For a reused id
whose new fingerprint is admitted, the index retains both entries (see the
counterexample). -/
theorem fingerprint_index_growth (ch : String → Nat) :
    (∀ (m : SimhashManager) (id t : String),
        ∃ tl, (add_page ch m id t).2.index = m.index ++ tl) ∧
      (∀ (m : SimhashManager) (id t : String),
        id ∉ m.index.map Prod.fst →
        ((add_page ch m id t).2.index.map Prod.fst).count id ≤ 1) ∧
      (∀ (m : SimhashManager) (id t : String),
        (m.hashes.map Prod.fst).Nodup →
        ((add_page ch m id t).2.hashes.map Prod.fst).Nodup) := by
  have hsplit : ∀ (m : SimhashManager) (id t : String),
      add_page ch m id t = (false, m) ∨
        ((add_page ch m id t).2.index = m.index ++ [(id, ch t)] ∧
          (add_page ch m id t).2.hashes = dictInsert id (ch t) m.hashes) := by
    intro m id t
    cases hg : (get_near_dups m (ch t)).isEmpty with
    | false =>
        left
        simp [add_page, hg]
    | true =>
        right
        constructor <;> simp [add_page, hg]
  refine ⟨?_, ?_, ?_⟩
  · intro m id t
    rcases hsplit m id t with h | ⟨h, -⟩
    · refine ⟨[], ?_⟩
      rw [h]
      simp
    · exact ⟨[(id, ch t)], h⟩
  · intro m id t hid
    rcases hsplit m id t with h | ⟨h, -⟩
    · rw [h]
      rw [List.count_eq_zero.mpr hid]
      omega
    · rw [h, List.map_append, List.count_append, List.count_eq_zero.mpr hid]
      simp
  · intro m id t hnd
    rcases hsplit m id t with h | ⟨-, h⟩
    · rw [h]
      exact hnd
    · rw [h]
      exact keys_nodup_dictInsert id (ch t) m.hashes hnd

/-- Witness for C8 (amended): a fresh id admitted into the empty manager
yields one index entry for it, growth by a concrete tail, and duplicate-free
hash-map keys. -/
theorem fingerprint_index_growth_witness :
    "x" ∉ (SimhashManager.init 3 64).index.map Prod.fst ∧
      ((add_page chash0 (SimhashManager.init 3 64) "x" "a").2.index.map
        Prod.fst).count "x" ≤ 1 ∧
      ((SimhashManager.init 3 64).hashes.map Prod.fst).Nodup ∧
      ((add_page chash0 (SimhashManager.init 3 64) "x" "a").2.hashes.map Prod.fst).Nodup ∧
      ∃ tl, (add_page chash0 (SimhashManager.init 3 64) "x" "a").2.index =
        (SimhashManager.init 3 64).index ++ tl :=
  ⟨by decide,
    (fingerprint_index_growth chash0).2.1 (SimhashManager.init 3 64) "x" "a" (by decide),
    by decide,
    (fingerprint_index_growth chash0).2.2 (SimhashManager.init 3 64) "x" "a" (by decide),
    (fingerprint_index_growth chash0).1 (SimhashManager.init 3 64) "x" "a"⟩

/-- C7 counterexample: the page `pageFr` is confidently non-English
(`is_page_english_by_metadata` returns `False`), yet the worker iteration
submits its text to `add_page` AND enqueues a Document Record for it —
refuting the claim that the worker marks such pages visited without either
action. -/
theorem worker_language_counterexample :
    is_page_english_by_metadata pageFr = some false ∧
      (crawl_worker_iter chash0 (fun _ => true) (fun _ => true) (URLManager.init false)
        (SimhashManager.init 3 64) "u" pageFr).savedDoc = true ∧
      (crawl_worker_iter chash0 (fun _ => true) (fun _ => true) (URLManager.init false)
        (SimhashManager.init 3 64) "u" pageFr).ranTryAdmit = true := by
  refine ⟨?_, ?_, ?_⟩ <;> decide

/-- C7 amended: the crawl worker performs NO language gating: its processing
of a fetched page depends only on the content type, canonical link, text and
links — two pages differing only in their language signal (the fields read by
`is_page_english_by_metadata`) are processed identically — and a confidently
non-English hypertext page with no canonical alias whose text is admitted by
`add_page` is written to the disk-writer queue like any other page.
Language-based filtering exists only in the standalone post-crawl filter
(`files_manager.py`), outside the worker loop. -/
theorem worker_no_language_gating (ch : String → Nat) (aF lF : String → Bool) :
    (∀ (um : URLManager) (sm : SimhashManager) (url : String) (p1 p2 : Page),
        p1.contentTypeHtml = p2.contentTypeHtml → p1.canonical = p2.canonical →
        p1.text = p2.text → p1.links = p2.links →
        crawl_worker_iter ch aF lF um sm url p1 = crawl_worker_iter ch aF lF um sm url p2) ∧
      (∀ (um : URLManager) (sm : SimhashManager) (url : String) (p : Page),
        is_page_english_by_metadata p = some false → p.contentTypeHtml = true →
        p.canonical = none → (add_page ch sm url p.text).1 = true →
        (crawl_worker_iter ch aF lF um sm url p).ranTryAdmit = true ∧
        (crawl_worker_iter ch aF lF um sm url p).savedDoc = true) := by
  constructor
  · intro um sm url p1 p2 h1 h2 h3 h4
    unfold crawl_worker_iter
    rw [h1, h2, h3, h4]
  · intro um sm url p hlang hct hcan hnew
    have hbody : crawl_worker_iter ch aF lF um sm url p =
        crawl_worker_body ch aF lF um sm url p.text p.links := by
      simp [crawl_worker_iter, hct, hcan]
    rw [hbody]
    constructor <;> simp [crawl_worker_body, hnew]

/-- Witness for C7 (amended): the non-English `pageFr` and its
English-attribute twin `pageEn` are processed identically, and `pageFr` is
admitted and written. -/
theorem worker_no_language_gating_witness :
    is_page_english_by_metadata pageFr = some false ∧
      pageFr.contentTypeHtml = true ∧ pageFr.canonical = none ∧
      (add_page chash0 (SimhashManager.init 3 64) "u" pageFr.text).1 = true ∧
      crawl_worker_iter chash0 (fun _ => true) (fun _ => true) (URLManager.init false)
          (SimhashManager.init 3 64) "u" pageFr =
        crawl_worker_iter chash0 (fun _ => true) (fun _ => true) (URLManager.init false)
          (SimhashManager.init 3 64) "u" pageEn ∧
      (crawl_worker_iter chash0 (fun _ => true) (fun _ => true) (URLManager.init false)
        (SimhashManager.init 3 64) "u" pageFr).ranTryAdmit = true ∧
      (crawl_worker_iter chash0 (fun _ => true) (fun _ => true) (URLManager.init false)
        (SimhashManager.init 3 64) "u" pageFr).savedDoc = true :=
  ⟨by decide, rfl, rfl, by decide,
    (worker_no_language_gating chash0 (fun _ => true) (fun _ => true)).1
      (URLManager.init false) (SimhashManager.init 3 64) "u" pageFr pageEn rfl rfl rfl rfl,
    ((worker_no_language_gating chash0 (fun _ => true) (fun _ => true)).2
      (URLManager.init false) (SimhashManager.init 3 64) "u" pageFr (by decide) rfl rfl
      (by decide)).1,
    ((worker_no_language_gating chash0 (fun _ => true) (fun _ => true)).2
      (URLManager.init false) (SimhashManager.init 3 64) "u" pageFr (by decide) rfl rfl
      (by decide)).2⟩
